import Mathlib

/-!
Shallow embedding of `src/MCPClient.ts` from the `mcp-client` repository
(a thin facade over the Model Context Protocol TypeScript SDK), together
with theorems settling the frozen claims about it.

The embedding models:
* JavaScript objects used as parameter mappings (`Obj`), with field update
  and the spread-copy used by `fetchAllPages`;
* JS string truthiness, which drives both the `if (cursor)` guard and the
  `while (cursor)` loop condition;
* the generic paginated-fetch helper `fetchAllPages` (MCPClient.ts lines
  67-101) as a fuel-indexed loop over a heap of objects, so that the
  non-mutation of the caller's base parameter object is a real statement;
* the request-options adapter `transformRequestOptions` (lines 42-48) and
  the conditional adaptation expression used at the call sites (lines 90,
  157);
* the `MCPClient` class state (underlying client, tracked transports) and
  its `connect` / `ping` / `close` methods (lines 103-170).
-/

/-! ## JavaScript object model

A parameter mapping (`Record<string, any>` in the source) is modelled as an
association list from string keys to string values; the values that matter
to the claims (cursor tokens) are strings.  JS objects are mutable and held
by reference, so a small heap (`Heap`, indexed by allocation order) makes
object identity explicit: the spread `{ ...base }` allocates a fresh object
and `params.cursor = c` mutates only that fresh object. -/

abbrev Obj := List (String × String)

/-- Read a field of a JS object (first binding wins; `setField` keeps keys
unique on well-formed objects). `none` models an absent field
(`undefined`). -/
def getField (o : Obj) (k : String) : Option String :=
  (o.find? (fun p => p.1 = k)).map (fun p => p.2)

/-- JS property assignment `o[k] = v`: overwrite the binding in place if the
key is present, otherwise append the new binding. -/
def setField (o : Obj) (k v : String) : Obj :=
  if o.any (fun p => p.1 = k) then
    o.map (fun p => if p.1 = k then (k, v) else p)
  else
    o ++ [(k, v)]

/-- A heap of JS objects; an object reference is its index. -/
abbrev Heap := List Obj

/-- Allocate a new object on the heap, returning the heap and the fresh
reference. -/
def alloc (h : Heap) (o : Obj) : Heap × Nat :=
  (h ++ [o], h.length)

/-- Dereference. -/
def getObj (h : Heap) (r : Nat) : Obj :=
  h.getD r []

/-- Overwrite the object at a reference. -/
def setObj (h : Heap) (r : Nat) (o : Obj) : Heap :=
  h.set r o

/-- JS truthiness of a possibly-absent string: `undefined` and the empty
string are falsy, every other string is truthy.  This is the semantics of
both `if (cursor)` and `while (cursor)` in `fetchAllPages`. -/
def truthy : Option String → Bool
  | none => false
  | some s => s ≠ ""

/-! ## Paginated responses

The zod schema decodes each raw response into a typed shape from which
`fetchAllPages` reads `nextCursor` directly and extracts the items through
the caller-supplied `getItems` accessor.  The payload type `β` is opaque to
the helper. -/

/-- A decoded paginated response: an opaque payload (from which `getItems`
extracts the items) plus the optional continuation cursor read by the
loop. -/
structure PageResponse (β : Type) where
  payload : β
  nextCursor : Option String
deriving DecidableEq, Repr

/-! ## The paginated fetch helper

`fetchAllPages` (MCPClient.ts lines 67-101):

```ts
async function fetchAllPages<T>(client, requestParams, schema, getItems,
                                requestOptions?): Promise<T[]> {
  const allItems: T[] = [];
  let cursor: string | undefined;
  do {
    const params = { ...(requestParams.params || \x7b\x7d) };
    if (cursor) { params.cursor = cursor; }
    const response = await client.request(
      { method: requestParams.method, params },
      schema,
      requestOptions ? transformRequestOptions(requestOptions) : undefined);
    allItems.push(...getItems(response));
    cursor = response.nextCursor;
  } while (cursor);
  return allItems;
}
```

The delegated `client.request` is the external collaborator: it is modelled
as an oracle `respond : Nat → Except ε (PageResponse β)` giving the outcome
of the i-th delegated request (the requests of one paginated fetch are
strictly sequential).  The loop is fuel-indexed: `none` means the loop did
not terminate within the given fuel.  The output records the final heap,
the parameter object sent with each delegated request (in order), and the
returned items or the propagated error. -/

structure LoopOut (α ε : Type) where
  heap : Heap
  trace : List Obj
  result : Except ε (List α)
deriving Repr

instance [DecidableEq ε] [DecidableEq α] : DecidableEq (Except ε α) :=
  fun a b =>
    match a, b with
    | Except.error e, Except.error f => decidable_of_iff (e = f) (by simp)
    | Except.ok x, Except.ok y => decidable_of_iff (x = y) (by simp)
    | Except.error _, Except.ok _ => isFalse (fun h => Except.noConfusion h)
    | Except.ok _, Except.error _ => isFalse (fun h => Except.noConfusion h)

instance [DecidableEq α] [DecidableEq ε] : DecidableEq (LoopOut α ε) :=
  fun a b =>
    decidable_of_iff
      (a.heap = b.heap ∧ a.trace = b.trace ∧ a.result = b.result)
      (by cases a; cases b; simp)

/-- One execution of the `do … while (cursor)` loop body and its
continuation, with `baseRef` the heap reference of the caller's
`requestParams.params` object, `idx` the index of the next delegated
request, `acc` the accumulator `allItems`, and `cursor` the current value
of the `cursor` variable. -/
def fetchLoop (getItems : PageResponse β → List α)
    (respond : Nat → Except ε (PageResponse β)) (baseRef : Nat) :
    Nat → Heap → Nat → List α → Option String → Option (LoopOut α ε)
  | 0, _, _, _, _ => none
  | fuel + 1, h, idx, acc, cursor =>
    -- const params = { ...(requestParams.params || \x7b\x7d) };
    let base := getObj h baseRef
    let (h1, pid) := alloc h base
    -- if (cursor) { params.cursor = cursor; }
    let h2 := if truthy cursor then
        setObj h1 pid (setField (getObj h1 pid) "cursor" (cursor.getD ""))
      else h1
    let p := getObj h2 pid
    -- const response = await client.request({ method, params }, schema, …);
    match respond idx with
    | Except.error e => some ⟨h2, [p], Except.error e⟩
    | Except.ok r =>
      -- allItems.push(...getItems(response)); cursor = response.nextCursor;
      let acc2 := acc ++ getItems r
      if truthy r.nextCursor then
        match fetchLoop getItems respond baseRef fuel h2 (idx + 1) acc2
            r.nextCursor with
        | none => none
        | some out => some ⟨out.heap, p :: out.trace, out.result⟩
      else
        -- while (cursor) fails: return allItems;
        some ⟨h2, [p], Except.ok acc2⟩

/-- Entry point of the helper: `requestParams.params || \x7b\x7d` (an absent
params object defaults to the empty object), placed on the heap at
reference 0, then the do-while loop starting with `cursor` undefined and an
empty accumulator. -/
def fetchAllPages (getItems : PageResponse β → List α)
    (respond : Nat → Except ε (PageResponse β)) (baseParams : Option Obj)
    (fuel : Nat) : Option (LoopOut α ε) :=
  fetchLoop getItems respond 0 fuel [baseParams.getD []] 0 [] none

/-- The parameter object one loop iteration sends, as a function of the
base object's current value and the held cursor: a spread copy of the base,
plus the `cursor` field when the cursor is truthy. -/
def mkParams (base : Obj) (cursor : Option String) : Obj :=
  if truthy cursor then setField base "cursor" (cursor.getD "") else base

/-- The expected parameter-object trace of a successful run that consumes
the given responses starting from the given cursor. -/
def expectedTrace (base : Obj) : Option String → List (PageResponse β) → List Obj
  | _, [] => []
  | cursor, r :: rest => mkParams base cursor :: expectedTrace base r.nextCursor rest

/-! ## Request options and the adapter

MCPClient.ts lines 25-48.  The progress-callback and cancellation-signal
values are opaque to the adapter, so they are type parameters; the timeout
is a number of milliseconds. -/

/-- The caller-facing `RequestOptions` shape (lines 25-40): every field
optional. -/
structure RequestOptions (P S : Type) where
  onProgress : Option P
  signal : Option S
  timeout : Option Nat
deriving DecidableEq, Repr

/-- The shape the underlying SDK call expects; note the lower-case
`onprogress` key. -/
structure AdaptedOptions (P S : Type) where
  onprogress : Option P
  signal : Option S
  timeout : Option Nat
deriving DecidableEq, Repr

/-- The request-options adapter (lines 42-48): a pure field-for-field
mapping. -/
def transformRequestOptions (ro : RequestOptions P S) : AdaptedOptions P S :=
  { onprogress := ro.onProgress, signal := ro.signal, timeout := ro.timeout }

/-- The conditional adaptation expression used at the delegating call sites
(line 90 in `fetchAllPages`, line 157 in `callTool`):
`requestOptions ? transformRequestOptions(requestOptions) : undefined`.
When no options value is present, no adapted object is constructed and
`undefined` is passed through. -/
def requestOptionsArg : Option (RequestOptions P S) → Option (AdaptedOptions P S)
  | none => none
  | some ro => some (transformRequestOptions ro)

/-! ## The MCPClient class

MCPClient.ts lines 50-65 declare the typed event surface, lines 103-170 the
class itself.  The underlying SDK `Client` is the external collaborator; the
part of it the claims observe is the set of inbound-notification handlers
the wrapper registers on it (none, as it turns out) and the arguments the
wrapper passes to its methods. -/

/-- The declared shape of the re-emitted progress event (lines 50-55). -/
structure ProgressNotification where
  progressToken : String ⊕ Nat
  progress : Int
  total : Option Int
  type : String
deriving DecidableEq, Repr

/-- An inbound notification arriving from the server over the underlying
client's connection. -/
structure InboundNotification where
  method : String
  body : Obj
deriving DecidableEq, Repr

/-- A handler registered on the underlying client for inbound
notifications, abstracted by what it would emit on a given inbound
message. -/
abbrev NotificationHandler := InboundNotification → List ProgressNotification

/-- The slice of the underlying SDK `Client` the claims observe: the
handlers registered on it for inbound notifications. -/
structure Client where
  handlers : List NotificationHandler

/-- Constructing the underlying SDK client registers no handler on behalf
of the wrapper. -/
def Client.new : Client := { handlers := [] }

/-- One SSE transport object, as constructed by
`new SSEClientTransport(new URL(sseUrl))`. -/
structure SSEClientTransport where
  url : String
deriving DecidableEq, Repr

/-- Connection errors propagated from the underlying handshake. -/
abbrev ConnErr := String

/-- The `MCPClient` instance state: the wrapped client and the ordered
collection of tracked transports (lines 104-105; `transports` starts
empty). -/
structure MCPClientState where
  client : Client
  transports : List SSEClientTransport

/-- The constructor (lines 107-111): `super(); this.client = new Client(…)`.
It registers nothing on the underlying client and tracks no transport. -/
def MCPClient.new : MCPClientState :=
  { client := Client.new, transports := [] }

/-- Delivery of one inbound notification: the underlying client invokes
every handler the wrapper registered, in registration order, and the
emitted events are their outputs concatenated. -/
def MCPClient.deliverInbound (s : MCPClientState) (msg : InboundNotification) :
    List ProgressNotification :=
  (s.client.handlers.map (fun handler => handler msg)).flatten

/-- The `connect` method (lines 113-121): construct the transport, push it
onto `this.transports`, then await the underlying handshake; the handshake
outcome is an oracle argument.  On handshake failure the error propagates
after the push. -/
def MCPClient.connect (s : MCPClientState) (sseUrl : String)
    (handshake : Except ConnErr Unit) :
    MCPClientState × Except ConnErr SSEClientTransport :=
  let transport : SSEClientTransport := { url := sseUrl }
  let s1 := { s with transports := s.transports ++ [transport] }
  match handshake with
  | Except.error e => (s1, Except.error e)
  | Except.ok _ => (s1, Except.ok transport)

/-- The JS `null` value, which `ping` resolves with. -/
inductive Null where
  | null
deriving DecidableEq, Repr

/-- The options argument of `ping` (line 123). -/
structure PingOptions (P S : Type) where
  requestOptions : Option (RequestOptions P S)
deriving DecidableEq, Repr

/-- What a delegated SDK call receives as its options argument.  JS is
dynamically typed, so the wrapper may pass `undefined`, the raw
caller-facing options object (whose progress-callback key is `onProgress`),
or an adapted object (whose progress-callback key is `onprogress`). -/
inductive PassedOptions (P S : Type) where
  | undef
  | raw (ro : RequestOptions P S)
  | adapted (ao : AdaptedOptions P S)
deriving DecidableEq, Repr

/-- The `ping` method (lines 123-127):
`await this.client.ping(options?.requestOptions); return null;`.
The result records the instance state after the call, the options argument
the underlying `ping` received, and the resolved value.  Note the source
passes `options?.requestOptions` directly, without
`transformRequestOptions`. -/
def MCPClient.ping (s : MCPClientState) (options : Option (PingOptions P S)) :
    MCPClientState × PassedOptions P S × Null :=
  let arg := match options with
    | none => PassedOptions.undef
    | some o => match o.requestOptions with
      | none => PassedOptions.undef
      | some ro => PassedOptions.raw ro
  (s, arg, Null.null)

/-- The `close` method (lines 165-169): iterate over `this.transports` in
order, awaiting `transport.close()` on each.  The second component is the
sequence of transports closed, in iteration order; the collection itself is
not modified. -/
def MCPClient.close (s : MCPClientState) :
    MCPClientState × List SSEClientTransport :=
  (s, s.transports)

/-! ## Concrete server behaviours used to exercise the definitions

A three-page listing (two items, then an empty page that still carries a
cursor, then one item), the same listing whose third request fails, and two
infinite servers (one stopping at its first response, one never
stopping). -/

def wItems : PageResponse (List Nat) → List Nat := fun r => r.payload

def wInit : List (PageResponse (List Nat)) :=
  [⟨[1, 2], some "X"⟩, ⟨[], some "Y"⟩]

def wLast : PageResponse (List Nat) := ⟨[3], none⟩

def wRespond : Nat → Except String (PageResponse (List Nat)) :=
  fun j => Except.ok ((wInit ++ [wLast]).getD j wLast)

def wRespondErr : Nat → Except String (PageResponse (List Nat)) :=
  fun j =>
    if j < wInit.length then Except.ok (wInit.getD j wLast)
    else Except.error "boom"

def wRespondStop : Nat → PageResponse (List Nat) :=
  fun i => ⟨[i], if i = 0 then none else some "c"⟩

/-! ## Basic lemmas about the object and heap model -/

theorem find?_setField_mem (t : Obj) (k v : String)
    (ht : t.any (fun q => q.1 = k) = true) :
    (t.map (fun p => if p.1 = k then (k, v) else p)).find?
      (fun q => q.1 = k) = some (k, v) := by
  induction t with
  | nil => simp at ht
  | cons p t ih =>
    by_cases hp : p.1 = k
    · simp [hp, List.find?_cons]
    · simp only [List.any_cons, decide_eq_false hp, Bool.false_or] at ht
      simpa [hp, List.find?_cons] using ih ht

theorem getField_setField_self (o : Obj) (k v : String) :
    getField (setField o k v) k = some v := by
  unfold setField getField
  by_cases h : o.any (fun q => q.1 = k) = true
  · simp [h, find?_setField_mem o k v h]
  · have hfalse : o.any (fun q => q.1 = k) = false := by
      cases hx : o.any (fun q => q.1 = k) <;> simp_all
    have hnone : o.find? (fun q => q.1 = k) = none :=
      List.find?_eq_none.mpr (List.any_eq_false.mp hfalse)
    simp [hfalse, List.find?_append, hnone, List.find?_cons]

theorem length_setObj (h : Heap) (r : Nat) (o : Obj) :
    (setObj h r o).length = h.length := by
  simp [setObj]

theorem getObj_append_lt (h : Heap) (o : Obj) (r : Nat) (hr : r < h.length) :
    getObj (h ++ [o]) r = getObj h r := by
  unfold getObj
  exact List.getD_append _ _ _ _ hr

theorem getObj_append_self (h : Heap) (o : Obj) :
    getObj (h ++ [o]) h.length = o := by
  simp [getObj, List.getD_append_right _ _ _ _ (Nat.le_refl _)]

theorem getObj_setObj_ne (h : Heap) (r r' : Nat) (o : Obj) (hne : r ≠ r') :
    getObj (setObj h r' o) r = getObj h r := by
  simp [getObj, setObj, List.getD_eq_getElem?_getD,
    List.getElem?_set_ne (fun hc => hne hc.symm)]

/-- Unfolding one iteration of the loop: the spread-copy plus conditional
cursor assignment amounts to appending `mkParams` of the base object's
current value to the heap, and that fresh object is the parameter object of
the iteration's delegated request. -/
theorem fetchLoop_succ (g : PageResponse β → List α)
    (respond : Nat → Except ε (PageResponse β)) (b : Nat) (fuel : Nat)
    (h : Heap) (idx : Nat) (acc : List α) (cursor : Option String) :
    fetchLoop g respond b (fuel + 1) h idx acc cursor =
      match respond idx with
      | Except.error e =>
          some ⟨h ++ [mkParams (getObj h b) cursor],
                [mkParams (getObj h b) cursor], Except.error e⟩
      | Except.ok r =>
        if truthy r.nextCursor then
          match fetchLoop g respond b fuel (h ++ [mkParams (getObj h b) cursor])
              (idx + 1) (acc ++ g r) r.nextCursor with
          | none => none
          | some out =>
              some ⟨out.heap, mkParams (getObj h b) cursor :: out.trace,
                    out.result⟩
        else
          some ⟨h ++ [mkParams (getObj h b) cursor],
                [mkParams (getObj h b) cursor], Except.ok (acc ++ g r)⟩ := by
  have hset : ∀ x : Obj,
      setObj (h ++ [getObj h b]) h.length x = h ++ [x] := by
    intro x
    simp [setObj, List.set_append]
  have hget : getObj (h ++ [getObj h b]) h.length = getObj h b :=
    getObj_append_self _ _
  by_cases hc : truthy cursor = true
  · simp only [fetchLoop, alloc, hc, if_true, hget, hset,
      getObj_append_self, mkParams]
  · have hc' : truthy cursor = false := by
      cases hx : truthy cursor <;> simp_all
    simp only [fetchLoop, alloc, hc', Bool.false_eq_true, if_false,
      getObj_append_self, mkParams]

/-- Case form of `fetchLoop_succ`: the delegated request fails. -/
theorem fetchLoop_succ_err (g : PageResponse β → List α)
    (respond : Nat → Except ε (PageResponse β)) (b fuel : Nat) (h : Heap)
    (idx : Nat) (acc : List α) (cursor : Option String) (e : ε)
    (hre : respond idx = Except.error e) :
    fetchLoop g respond b (fuel + 1) h idx acc cursor =
      some ⟨h ++ [mkParams (getObj h b) cursor],
            [mkParams (getObj h b) cursor], Except.error e⟩ := by
  rw [fetchLoop_succ, hre]

/-- Case form of `fetchLoop_succ`: the delegated request succeeds with a
truthy cursor, so the loop continues. -/
theorem fetchLoop_succ_ok_cont (g : PageResponse β → List α)
    (respond : Nat → Except ε (PageResponse β)) (b fuel : Nat) (h : Heap)
    (idx : Nat) (acc : List α) (cursor : Option String) (r : PageResponse β)
    (hre : respond idx = Except.ok r) (hc : truthy r.nextCursor = true) :
    fetchLoop g respond b (fuel + 1) h idx acc cursor =
      Option.map
        (fun out => ⟨out.heap, mkParams (getObj h b) cursor :: out.trace,
                     out.result⟩)
        (fetchLoop g respond b fuel (h ++ [mkParams (getObj h b) cursor])
          (idx + 1) (acc ++ g r) r.nextCursor) := by
  rw [fetchLoop_succ, hre]
  simp only [hc, if_true]
  cases fetchLoop g respond b fuel (h ++ [mkParams (getObj h b) cursor])
      (idx + 1) (acc ++ g r) r.nextCursor <;> rfl

/-- Case form of `fetchLoop_succ`: the delegated request succeeds with an
absent or empty cursor, so the loop stops after this response. -/
theorem fetchLoop_succ_ok_stop (g : PageResponse β → List α)
    (respond : Nat → Except ε (PageResponse β)) (b fuel : Nat) (h : Heap)
    (idx : Nat) (acc : List α) (cursor : Option String) (r : PageResponse β)
    (hre : respond idx = Except.ok r) (hc : truthy r.nextCursor = false) :
    fetchLoop g respond b (fuel + 1) h idx acc cursor =
      some ⟨h ++ [mkParams (getObj h b) cursor],
            [mkParams (getObj h b) cursor], Except.ok (acc ++ g r)⟩ := by
  rw [fetchLoop_succ, hre]
  simp only [hc, Bool.false_eq_true, if_false]

/-- The loop never writes to any pre-existing heap object: in particular the
caller's base parameter object is left exactly as it was, whatever the
outcome. -/
theorem fetchLoop_heap_pres (g : PageResponse β → List α)
    (respond : Nat → Except ε (PageResponse β)) (b : Nat) :
    ∀ (fuel : Nat) (h : Heap) (idx : Nat) (acc : List α)
      (cursor : Option String) (out : LoopOut α ε),
      b < h.length →
      fetchLoop g respond b fuel h idx acc cursor = some out →
      getObj out.heap b = getObj h b := by
  intro fuel
  induction fuel with
  | zero =>
    intro h idx acc cursor out hb hrun
    simp [fetchLoop] at hrun
  | succ fuel ih =>
    intro h idx acc cursor out hb hrun
    rw [fetchLoop_succ] at hrun
    have hb1 : b < (h ++ [mkParams (getObj h b) cursor]).length := by
      simp; omega
    have hgb : getObj (h ++ [mkParams (getObj h b) cursor]) b = getObj h b :=
      getObj_append_lt _ _ _ hb
    split at hrun
    · injection hrun with hout
      rw [← hout]
      exact hgb
    · split at hrun
      · split at hrun
        · cases hrun
        · next out' hrec =>
          injection hrun with hout
          rw [← hout]
          rw [ih _ _ _ _ out' hb1 hrec]
          exact hgb
      · injection hrun with hout
        rw [← hout]
        exact hgb

/-- Fuel monotonicity: a terminating run is stable under extra fuel. -/
theorem fetchLoop_mono (g : PageResponse β → List α)
    (respond : Nat → Except ε (PageResponse β)) (b : Nat) :
    ∀ (fuel fuel' : Nat) (h : Heap) (idx : Nat) (acc : List α)
      (cursor : Option String) (out : LoopOut α ε),
      fuel ≤ fuel' →
      fetchLoop g respond b fuel h idx acc cursor = some out →
      fetchLoop g respond b fuel' h idx acc cursor = some out := by
  intro fuel
  induction fuel with
  | zero =>
    intro fuel' h idx acc cursor out _ hrun
    simp [fetchLoop] at hrun
  | succ fuel ih =>
    intro fuel' h idx acc cursor out hle hrun
    cases fuel' with
    | zero => omega
    | succ fuel'' =>
      cases hre : respond idx with
      | error e =>
        rw [fetchLoop_succ_err g respond b fuel h idx acc cursor e hre] at hrun
        rw [fetchLoop_succ_err g respond b fuel'' h idx acc cursor e hre]
        exact hrun
      | ok r =>
        cases hc : truthy r.nextCursor with
        | true =>
          rw [fetchLoop_succ_ok_cont g respond b fuel h idx acc cursor r hre hc]
            at hrun
          rw [fetchLoop_succ_ok_cont g respond b fuel'' h idx acc cursor r hre
            hc]
          cases hrec : fetchLoop g respond b fuel
              (h ++ [mkParams (getObj h b) cursor]) (idx + 1) (acc ++ g r)
              r.nextCursor with
          | none =>
            rw [hrec] at hrun
            cases hrun
          | some out' =>
            rw [hrec] at hrun
            rw [ih fuel'' _ _ _ _ out' (by omega) hrec]
            exact hrun
        | false =>
          rw [fetchLoop_succ_ok_stop g respond b fuel h idx acc cursor r hre hc]
            at hrun
          rw [fetchLoop_succ_ok_stop g respond b fuel'' h idx acc cursor r hre
            hc]
          exact hrun

/-- Length of the expected parameter trace: one parameter object per
consumed response. -/
theorem expectedTrace_length (base : Obj) :
    ∀ (cursor : Option String) (rs : List (PageResponse β)),
      (expectedTrace base cursor rs).length = rs.length := by
  intro cursor rs
  induction rs generalizing cursor with
  | nil => rfl
  | cons r rest ih => simp [expectedTrace, ih]

/-- Every parameter object after the first in the expected trace is built
from the cursor of the response that preceded it. -/
theorem expectedTrace_getElem_succ (base : Obj) :
    ∀ (rs : List (PageResponse β)) (cursor : Option String) (k : Nat)
      (r : PageResponse β),
      k + 1 < rs.length → rs[k]? = some r →
      (expectedTrace base cursor rs)[k + 1]? =
        some (mkParams base r.nextCursor) := by
  intro rs
  induction rs with
  | nil =>
    intro cursor k r hk
    simp at hk
  | cons x rest ih =>
    intro cursor k r hk hr
    cases k with
    | zero =>
      have hx : x = r := by simpa using hr
      subst hx
      cases rest with
      | nil => simp at hk
      | cons y ys => simp [expectedTrace]
    | succ k' =>
      have hk' : k' + 1 < rest.length := by simp at hk; omega
      have hr' : rest[k']? = some r := by simpa using hr
      simpa [expectedTrace] using ih x.nextCursor k' r hk' hr'

/-- A run over pages `init ++ [last]` in which every response in `init`
carries a truthy cursor and `last` does not: the loop terminates with fuel
one past `init`, sends exactly the expected parameter objects, appends them
to the heap in order, and returns the accumulator extended page by page. -/
theorem fetchLoop_run_ok (g : PageResponse β → List α)
    (respond : Nat → Except ε (PageResponse β)) (b : Nat) :
    ∀ (init : List (PageResponse β)) (last : PageResponse β) (h : Heap)
      (idx : Nat) (acc : List α) (cursor : Option String),
      b < h.length →
      (∀ (j : Nat) (r : PageResponse β), (init ++ [last])[j]? = some r →
        respond (idx + j) = Except.ok r) →
      (∀ r ∈ init, truthy r.nextCursor = true) →
      truthy last.nextCursor = false →
      fetchLoop g respond b (init.length + 1) h idx acc cursor =
        some ⟨h ++ expectedTrace (getObj h b) cursor (init ++ [last]),
              expectedTrace (getObj h b) cursor (init ++ [last]),
              Except.ok (acc ++ ((init ++ [last]).map g).flatten)⟩ := by
  intro init
  induction init with
  | nil =>
    intro last h idx acc cursor hb hresp htr hlast
    have h0 : respond idx = Except.ok last := by
      simpa using hresp 0 last (by simp)
    rw [show ([] : List (PageResponse β)).length + 1 = 0 + 1 by simp]
    rw [fetchLoop_succ_ok_stop g respond b 0 h idx acc cursor last h0 hlast]
    simp [expectedTrace]
  | cons a t ih =>
    intro last h idx acc cursor hb hresp htr hlast
    have h0 : respond idx = Except.ok a := by
      simpa using hresp 0 a (by simp)
    have hca : truthy a.nextCursor = true := htr a (by simp)
    rw [show (a :: t).length + 1 = (t.length + 1) + 1 by simp]
    rw [fetchLoop_succ_ok_cont g respond b (t.length + 1) h idx acc cursor a
      h0 hca]
    have hb2 : b < (h ++ [mkParams (getObj h b) cursor]).length := by
      simp
      omega
    have hresp' : ∀ (j : Nat) (r : PageResponse β),
        (t ++ [last])[j]? = some r → respond (idx + 1 + j) = Except.ok r := by
      intro j r hjr
      have hstep : ((a :: t) ++ [last])[j + 1]? = some r := by
        simpa using hjr
      have := hresp (j + 1) r hstep
      rw [show idx + (j + 1) = idx + 1 + j by omega] at this
      exact this
    have htr' : ∀ r ∈ t, truthy r.nextCursor = true :=
      fun r hr => htr r (List.mem_cons_of_mem _ hr)
    rw [ih last (h ++ [mkParams (getObj h b) cursor]) (idx + 1) (acc ++ g a)
      a.nextCursor hb2 hresp' htr' hlast]
    have hgb : getObj (h ++ [mkParams (getObj h b) cursor]) b = getObj h b :=
      getObj_append_lt _ _ _ hb
    simp [hgb, expectedTrace, List.append_assoc]

/-- A run in which every response in `init` succeeds with a truthy cursor
and the next delegated request fails: the loop stops at the failing
request, issuing exactly `init.length + 1` requests, and the error is the
whole outcome. -/
theorem fetchLoop_run_err (g : PageResponse β → List α)
    (respond : Nat → Except ε (PageResponse β)) (b : Nat) :
    ∀ (init : List (PageResponse β)) (e : ε) (h : Heap) (idx : Nat)
      (acc : List α) (cursor : Option String),
      b < h.length →
      (∀ (j : Nat) (r : PageResponse β), init[j]? = some r →
        respond (idx + j) = Except.ok r) →
      (∀ r ∈ init, truthy r.nextCursor = true) →
      respond (idx + init.length) = Except.error e →
      ∃ tr : List Obj,
        fetchLoop g respond b (init.length + 1) h idx acc cursor =
          some ⟨h ++ tr, tr, Except.error e⟩ ∧ tr.length = init.length + 1 := by
  intro init
  induction init with
  | nil =>
    intro e h idx acc cursor hb _ _ herr
    have h0 : respond idx = Except.error e := by simpa using herr
    exact ⟨[mkParams (getObj h b) cursor],
      fetchLoop_succ_err g respond b 0 h idx acc cursor e h0, by simp⟩
  | cons a t ih =>
    intro e h idx acc cursor hb hresp htr herr
    have h0 : respond idx = Except.ok a := by
      simpa using hresp 0 a (by simp)
    have hca : truthy a.nextCursor = true := htr a (by simp)
    have hresp' : ∀ (j : Nat) (r : PageResponse β), t[j]? = some r →
        respond (idx + 1 + j) = Except.ok r := by
      intro j r hjr
      have := hresp (j + 1) r (by simpa using hjr)
      rw [show idx + (j + 1) = idx + 1 + j by omega] at this
      exact this
    have htr' : ∀ r ∈ t, truthy r.nextCursor = true :=
      fun r hr => htr r (List.mem_cons_of_mem _ hr)
    have herr' : respond (idx + 1 + t.length) = Except.error e := by
      rw [show idx + 1 + t.length = idx + (a :: t).length by simp; omega]
      exact herr
    have hb2 : b < (h ++ [mkParams (getObj h b) cursor]).length := by
      simp
      omega
    obtain ⟨tr', hrun', hlen'⟩ :=
      ih e (h ++ [mkParams (getObj h b) cursor]) (idx + 1) (acc ++ g a)
        a.nextCursor hb2 hresp' htr' herr'
    refine ⟨mkParams (getObj h b) cursor :: tr', ?_, by simp [hlen']⟩
    rw [show (a :: t).length + 1 = (t.length + 1) + 1 by simp]
    rw [fetchLoop_succ_ok_cont g respond b (t.length + 1) h idx acc cursor a
      h0 hca]
    rw [hrun']
    simp

/-- With an oracle whose every response succeeds and carries a truthy
cursor, no amount of fuel makes the loop terminate. -/
theorem fetchLoop_no_exit (g : PageResponse β → List α)
    (respondF : Nat → PageResponse β) (b : Nat)
    (hall : ∀ i, truthy (respondF i).nextCursor = true) :
    ∀ (fuel : Nat) (h : Heap) (idx : Nat) (acc : List α)
      (cursor : Option String),
      fetchLoop g (fun i => (Except.ok (respondF i) : Except ε _)) b fuel h
        idx acc cursor = none := by
  intro fuel
  induction fuel with
  | zero =>
    intro h idx acc cursor
    simp [fetchLoop]
  | succ fuel ih =>
    intro h idx acc cursor
    rw [fetchLoop_succ_ok_cont g _ b fuel h idx acc cursor (respondF idx) rfl
      (hall idx)]
    rw [ih]
    rfl

/-! ## Claim theorems -/

/-- C1: For every paginated sequence of server responses P1..Pn (n >= 1) in
which P1..P(n-1) carry a truthy nextCursor and Pn does not, `fetchAllPages`
returns the concatenation of each response's extracted items in page order
and issues exactly n delegated requests, each request after the first
carrying the previous response's cursor in its parameters; this holds also
when some response's items array is empty but its cursor is present (no
constraint is placed on the items of any page). -/
theorem claim1_pagination_concatenates (g : PageResponse β → List α)
    (respond : Nat → Except ε (PageResponse β))
    (init : List (PageResponse β)) (last : PageResponse β)
    (baseParams : Option Obj) (fuel : Nat)
    (hfuel : init.length + 1 ≤ fuel)
    (hresp : ∀ (j : Nat) (r : PageResponse β), (init ++ [last])[j]? = some r →
      respond j = Except.ok r)
    (htr : ∀ r ∈ init, truthy r.nextCursor = true)
    (hlast : truthy last.nextCursor = false) :
    ∃ out, fetchAllPages g respond baseParams fuel = some out ∧
      out.result = Except.ok (((init ++ [last]).map g).flatten) ∧
      out.trace.length = init.length + 1 ∧
      ∀ (k : Nat) (r : PageResponse β) (p : Obj),
        (init ++ [last])[k]? = some r → out.trace[k + 1]? = some p →
        getField p "cursor" = r.nextCursor := by
  have hb : (0 : Nat) < ([baseParams.getD []] : Heap).length := by simp
  have hresp0 : ∀ (j : Nat) (r : PageResponse β), (init ++ [last])[j]? = some r →
      respond (0 + j) = Except.ok r := by
    intro j r hjr
    simpa using hresp j r hjr
  have hrun := fetchLoop_run_ok g respond 0 init last [baseParams.getD []] 0 []
    none hb hresp0 htr hlast
  have hrun' := fetchLoop_mono g respond 0 (init.length + 1) fuel _ _ _ _ _
    hfuel hrun
  refine ⟨_, hrun', by simp, ?_, ?_⟩
  · simp [expectedTrace_length]
  · intro k r p hk hp
    simp only at hp
    by_cases hklt : k + 1 < (init ++ [last]).length
    · have hkinit : k < init.length := by
        simp [List.length_append] at hklt
        omega
      have hrmem : r ∈ init := by
        rw [List.getElem?_append_left hkinit] at hk
        exact List.getElem?_mem hk
      have htru : truthy r.nextCursor = true := htr r hrmem
      obtain ⟨c, hc⟩ : ∃ c, r.nextCursor = some c := by
        cases hx : r.nextCursor with
        | none => rw [hx] at htru; simp [truthy] at htru
        | some c => exact ⟨c, rfl⟩
      rw [expectedTrace_getElem_succ _ (init ++ [last]) none k r hklt hk] at hp
      injection hp with hp
      rw [← hp, hc]
      have htc : truthy (some c) = true := by rw [← hc]; exact htru
      simp [mkParams, htc, getField_setField_self]
    · have hnone : (expectedTrace (getObj [baseParams.getD []] 0) none
          (init ++ [last]) : List Obj)[k + 1]? = none :=
        List.getElem?_eq_none (by rw [expectedTrace_length]; omega)
      rw [hnone] at hp
      cases hp

/-- Witness for C1: a three-page listing with base parameters, whose middle
page has an empty items array but a present cursor. -/
theorem claim1_witness :
    ∃ out, fetchAllPages wItems wRespond (some [("a", "b")]) 3 = some out ∧
      out.result = Except.ok [1, 2, 3] ∧
      out.trace.length = 3 := by
  obtain ⟨out, h1, h2, h3, _⟩ :=
    claim1_pagination_concatenates wItems wRespond wInit wLast
      (some [("a", "b")]) 3 (by decide)
      (fun j r hjr => by
        show Except.ok ((wInit ++ [wLast]).getD j wLast) = Except.ok r
        rw [List.getD_eq_getElem?_getD, hjr]
        rfl)
      (by decide) (by decide)
  exact ⟨out, h1, h2, h3⟩

/-- C5: If any delegated request issued by `fetchAllPages` fails, the
failure propagates unmodified to the caller as the rejection of the whole
operation, the loop is aborted at that request (no further requests are
issued), and no partial accumulated results are returned: the outcome is
exactly the error, carrying no items. -/
theorem claim5_error_propagates (g : PageResponse β → List α)
    (respond : Nat → Except ε (PageResponse β))
    (init : List (PageResponse β)) (e : ε) (baseParams : Option Obj)
    (fuel : Nat) (hfuel : init.length + 1 ≤ fuel)
    (hresp : ∀ (j : Nat) (r : PageResponse β), init[j]? = some r →
      respond j = Except.ok r)
    (htr : ∀ r ∈ init, truthy r.nextCursor = true)
    (herr : respond init.length = Except.error e) :
    ∃ out, fetchAllPages g respond baseParams fuel = some out ∧
      out.result = Except.error e ∧
      out.trace.length = init.length + 1 := by
  have hb : (0 : Nat) < ([baseParams.getD []] : Heap).length := by simp
  obtain ⟨tr, hrun, hlen⟩ := fetchLoop_run_err g respond 0 init e
    [baseParams.getD []] 0 [] none hb
    (fun j r hjr => by simpa using hresp j r hjr) htr (by simpa using herr)
  exact ⟨_, fetchLoop_mono g respond 0 (init.length + 1) fuel _ _ _ _ _
    hfuel hrun, by simp, by simp [hlen]⟩

/-- Witness for C5: the three-page listing whose third delegated request
fails; the result is exactly the error after three requests. -/
theorem claim5_witness :
    ∃ out, fetchAllPages wItems wRespondErr (some [("a", "b")]) 3 = some out ∧
      out.result = Except.error "boom" ∧
      out.trace.length = wInit.length + 1 :=
  claim5_error_propagates wItems wRespondErr wInit "boom"
    (some [("a", "b")]) 3 (by decide)
    (fun j r hjr => by
      have hj : j < wInit.length := by
        by_contra hge
        rw [List.getElem?_eq_none (by omega)] at hjr
        cases hjr
      show wRespondErr j = Except.ok r
      unfold wRespondErr
      rw [if_pos hj, List.getD_eq_getElem?_getD, hjr]
      rfl)
    (by decide) (by decide)

/-- C6: with an all-successful oracle, `fetchAllPages` terminates if and
only if some response carries an absent or empty `nextCursor`; when `n` is
the first such index it terminates with fuel `n + 1` after issuing exactly
`n + 1` requests; and when every response carries a truthy cursor no amount
of fuel produces a result (there is no internal page-count or time
budget). -/
theorem claim6_termination_iff (g : PageResponse β → List α) (ε : Type)
    (respondF : Nat → PageResponse β) (baseParams : Option Obj) :
    ((∃ fuel out, fetchAllPages g
        (fun i => (Except.ok (respondF i) : Except ε _)) baseParams fuel =
          some out) ↔
      ∃ i, truthy (respondF i).nextCursor = false) ∧
    (∀ n : Nat, (∀ i, i < n → truthy (respondF i).nextCursor = true) →
      truthy (respondF n).nextCursor = false →
      ∃ out, fetchAllPages g (fun i => (Except.ok (respondF i) : Except ε _))
          baseParams (n + 1) = some out ∧
        out.trace.length = n + 1) ∧
    ((∀ i, truthy (respondF i).nextCursor = true) →
      ∀ fuel, fetchAllPages g (fun i => (Except.ok (respondF i) : Except ε _))
        baseParams fuel = none) := by
  have hterm : ∀ n : Nat, (∀ i, i < n → truthy (respondF i).nextCursor = true) →
      truthy (respondF n).nextCursor = false →
      ∃ out, fetchAllPages g (fun i => (Except.ok (respondF i) : Except ε _))
          baseParams (n + 1) = some out ∧
        out.trace.length = n + 1 := by
    intro n hlt hfalsy
    have hb : (0 : Nat) < ([baseParams.getD []] : Heap).length := by simp
    have hsplit : ((List.range n).map respondF) ++ [respondF n] =
        (List.range (n + 1)).map respondF := by
      rw [List.range_succ, List.map_append]
      rfl
    have hresp : ∀ (j : Nat) (r : PageResponse β),
        (((List.range n).map respondF) ++ [respondF n])[j]? = some r →
        (fun i => (Except.ok (respondF i) : Except ε _)) (0 + j) =
          Except.ok r := by
      intro j r hjr
      rw [hsplit] at hjr
      have hjlen : j < n + 1 := by
        by_contra hge
        rw [List.getElem?_eq_none (by simp; omega)] at hjr
        cases hjr
      have : ((List.range (n + 1)).map respondF)[j]? = some (respondF j) := by
        rw [List.getElem?_map, List.getElem?_range hjlen]
        rfl
      rw [this] at hjr
      injection hjr with hjr
      simp [hjr]
    have htr : ∀ r ∈ (List.range n).map respondF,
        truthy r.nextCursor = true := by
      intro r hr
      obtain ⟨i, hi, rfl⟩ := List.mem_map.mp hr
      exact hlt i (List.mem_range.mp hi)
    have hrun := fetchLoop_run_ok g
      (fun i => (Except.ok (respondF i) : Except ε _)) 0
      ((List.range n).map respondF) (respondF n) [baseParams.getD []] 0 []
      none hb hresp htr hfalsy
    rw [show ((List.range n).map respondF).length + 1 = n + 1 by simp] at hrun
    exact ⟨_, hrun, by simp [expectedTrace_length]⟩
  have hnoexit : (∀ i, truthy (respondF i).nextCursor = true) →
      ∀ fuel, fetchAllPages g (fun i => (Except.ok (respondF i) : Except ε _))
        baseParams fuel = none := by
    intro hall fuel
    exact fetchLoop_no_exit g respondF 0 hall fuel _ 0 [] none
  refine ⟨⟨?_, ?_⟩, hterm, hnoexit⟩
  · rintro ⟨fuel, out, hout⟩
    by_contra hno
    push_neg at hno
    have hall : ∀ i, truthy (respondF i).nextCursor = true := by
      intro i
      cases hx : truthy (respondF i).nextCursor with
      | false => exact absurd hx (hno i)
      | true => rfl
    rw [hnoexit hall fuel] at hout
    cases hout
  · rintro ⟨i, hi⟩
    have hex : ∃ j, truthy (respondF j).nextCursor = false := ⟨i, hi⟩
    obtain ⟨out, hout, _⟩ := hterm (Nat.find hex)
      (fun j hj => by
        have := Nat.find_min hex hj
        cases hx : truthy (respondF j).nextCursor with
        | false => exact absurd hx this
        | true => rfl)
      (Nat.find_spec hex)
    exact ⟨Nat.find hex + 1, out, hout⟩

/-- Witness for C6: a server whose very first response lacks a cursor makes
the helper terminate after exactly one request. -/
theorem claim6_witness :
    ∃ out, fetchAllPages wItems
        (fun i => (Except.ok (wRespondStop i) : Except String _)) none
        (0 + 1) = some out ∧
      out.trace.length = 0 + 1 :=
  (claim6_termination_iff wItems String wRespondStop none).2.1 0
    (fun i hi => absurd hi (by omega)) (by decide)

/-- C7: whatever the outcome of a terminating run, the caller's original
base-parameter object (heap reference 0) is never mutated: each iteration
copies it before adding the cursor field, so after `fetchAllPages` returns
it still holds its initial value. -/
theorem claim7_base_params_unchanged (g : PageResponse β → List α)
    (respond : Nat → Except ε (PageResponse β)) (baseParams : Option Obj)
    (fuel : Nat) (out : LoopOut α ε)
    (hrun : fetchAllPages g respond baseParams fuel = some out) :
    getObj out.heap 0 = baseParams.getD [] := by
  have hpres := fetchLoop_heap_pres g respond 0 fuel [baseParams.getD []] 0 []
    none out (by simp) hrun
  simpa [getObj] using hpres

/-- Witness for C7: the three-page run over base parameters
`[("a", "b")]`; the final heap still holds them unchanged at reference
0. -/
theorem claim7_witness :
    getObj ((LoopOut.mk
      [[("a", "b")], [("a", "b")], [("a", "b"), ("cursor", "X")],
        [("a", "b"), ("cursor", "Y")]]
      [[("a", "b")], [("a", "b"), ("cursor", "X")],
        [("a", "b"), ("cursor", "Y")]]
      (Except.ok [1, 2, 3])) : LoopOut Nat String).heap 0 =
      (some [("a", "b")] : Option Obj).getD [] :=
  claim7_base_params_unchanged wItems wRespond (some [("a", "b")]) 3 _
    (by decide)

/-- C4: the Request Options Adapter is the pure field-for-field mapping
onProgress to onprogress, signal to signal, timeout to timeout; with only
timeout set, the adapted onprogress and signal are absent; and at the call
sites no adapted object is constructed when no options value is present
(undefined is passed through). -/
theorem claim4_adapter_pure_mapping (P S : Type) (ro : RequestOptions P S)
    (t : Option Nat) :
    (transformRequestOptions ro).onprogress = ro.onProgress ∧
    (transformRequestOptions ro).signal = ro.signal ∧
    (transformRequestOptions ro).timeout = ro.timeout ∧
    (transformRequestOptions
      (⟨none, none, t⟩ : RequestOptions P S)).onprogress = none ∧
    (transformRequestOptions
      (⟨none, none, t⟩ : RequestOptions P S)).signal = none ∧
    (transformRequestOptions
      (⟨none, none, t⟩ : RequestOptions P S)).timeout = t ∧
    requestOptionsArg (none : Option (RequestOptions P S)) = none ∧
    (∀ ro2 : RequestOptions P S,
      requestOptionsArg (some ro2) = some (transformRequestOptions ro2)) :=
  ⟨rfl, rfl, rfl, rfl, rfl, rfl, rfl, fun _ => rfl⟩

/-- C3 (counterexample): at a concrete options value carrying a progress
callback, `ping` does not pass the adapted object to the underlying
`ping`; it passes the raw caller-facing options object instead. -/
theorem claim3_counterexample :
    (MCPClient.ping MCPClient.new
        (some ⟨some (⟨some 7, none, none⟩ : RequestOptions Nat Nat)⟩)).2.1 ≠
      PassedOptions.adapted
        (transformRequestOptions
          (⟨some 7, none, none⟩ : RequestOptions Nat Nat)) := by
  decide

/-- C3 (amended): for every call to `ping`, the request options supplied by
the caller are passed unmodified — not through the Request Options
Adapter — to the underlying client's `ping` (and `undefined` is passed when
absent); the instance state is untouched and on success `ping` resolves
with null. -/
theorem claim3_ping_raw_options (P S : Type) (s : MCPClientState)
    (options : Option (PingOptions P S)) :
    (MCPClient.ping s options).2.2 = Null.null ∧
    (MCPClient.ping s options).1 = s ∧
    (∀ ro : RequestOptions P S, options = some ⟨some ro⟩ →
      (MCPClient.ping s options).2.1 = PassedOptions.raw ro) ∧
    ((options = none ∨ options = some ⟨none⟩) →
      (MCPClient.ping s options).2.1 = PassedOptions.undef) := by
  refine ⟨rfl, rfl, ?_, ?_⟩
  · rintro ro rfl
    rfl
  · rintro (rfl | rfl) <;> rfl

/-- Witness for C3: a concrete `ping` call with a progress callback in its
options; the underlying `ping` receives the raw options object. -/
theorem claim3_witness :
    (MCPClient.ping MCPClient.new
        (some ⟨some (⟨some 7, none, none⟩ : RequestOptions Nat Nat)⟩)).2.1 =
      PassedOptions.raw ⟨some 7, none, none⟩ :=
  (claim3_ping_raw_options Nat Nat MCPClient.new
    (some ⟨some ⟨some 7, none, none⟩⟩)).2.2.1 ⟨some 7, none, none⟩ rfl

/-- C2: contrary to the claim, no notification bridge exists in the code:
the constructor registers no handler on the underlying client's inbound
notification stream, no lifecycle operation ever registers one, and
consequently delivering any inbound (progress or other) notification to a
freshly constructed client re-emits nothing. -/
theorem claim2_no_notification_bridge (msg : InboundNotification)
    (s : MCPClientState) (url : String) (hs : Except ConnErr Unit)
    (popts : Option (PingOptions Nat Nat)) :
    MCPClient.new.client.handlers = [] ∧
    MCPClient.deliverInbound MCPClient.new msg = [] ∧
    (MCPClient.connect s url hs).1.client.handlers = s.client.handlers ∧
    (MCPClient.ping s popts).1.client.handlers = s.client.handlers ∧
    (MCPClient.close s).1.client.handlers = s.client.handlers ∧
    (s.client.handlers = [] → MCPClient.deliverInbound s msg = []) := by
  refine ⟨rfl, rfl, ?_, rfl, rfl, ?_⟩
  · cases hs <;> rfl
  · intro hnil
    simp [MCPClient.deliverInbound, hnil]

/-- Witness for C2: an inbound progress notification delivered to a
freshly constructed client emits no event. -/
theorem claim2_witness :
    MCPClient.deliverInbound MCPClient.new
      ⟨"notifications/progress", [("progressToken", "t")]⟩ = [] :=
  (claim2_no_notification_bridge
    ⟨"notifications/progress", [("progressToken", "t")]⟩ MCPClient.new
    "http://localhost/sse" (Except.ok ()) none).2.2.2.2.2 rfl

/-- C8: every transport created by `connect` is appended to the ordered
tracked-transport collection (two connects from a fresh client track both
transports in open order), and `close` closes exactly the tracked
transports in the order they were opened. -/
theorem claim8_transports_tracked (s : MCPClientState) (url url2 : String)
    (hs hs2 : Except ConnErr Unit) :
    (MCPClient.connect s url hs).1.transports = s.transports ++ [⟨url⟩] ∧
    (MCPClient.connect (MCPClient.connect MCPClient.new url hs).1 url2
        hs2).1.transports = [⟨url⟩, ⟨url2⟩] ∧
    (MCPClient.close s).2 = s.transports := by
  refine ⟨?_, ?_, rfl⟩
  · cases hs <;> rfl
  · cases hs <;> cases hs2 <;> rfl

/-- C9: `connect` pushes the new transport before awaiting the handshake,
so on handshake failure the error propagates while the failed transport
remains tracked, and a later `close` closes it along with the rest. -/
theorem claim9_failed_connect_tracked (s : MCPClientState) (url : String)
    (e : ConnErr) :
    (MCPClient.connect s url (Except.error e)).2 = Except.error e ∧
    (MCPClient.connect s url (Except.error e)).1.transports =
      s.transports ++ [⟨url⟩] ∧
    (MCPClient.close (MCPClient.connect s url (Except.error e)).1).2 =
      s.transports ++ [⟨url⟩] :=
  ⟨rfl, rfl, rfl⟩

/-- C10: `close` never removes transports from the tracked collection:
the state after `close` is unchanged (same transports, same order), and a
second `close` iterates over and closes exactly the same transports. -/
theorem claim10_close_preserves (s : MCPClientState) :
    (MCPClient.close s).1 = s ∧
    (MCPClient.close s).1.transports = s.transports ∧
    (MCPClient.close (MCPClient.close s).1).2 = (MCPClient.close s).2 :=
  ⟨rfl, rfl, rfl⟩
